import Mathlib

/-
  Verification development for the sudoku-tool repository (src/puzzle.py, src/tools.py).

  The board is modelled arena-style: a cell is addressed by its linear index
  0..80 (row major), exactly as Cell.id in the source; the mutable object graph
  of Python Cell references becomes a function from indices to cell states, and
  every mutating method becomes a function returning the updated board.  The
  sees lists built by Puzzle.add_sees are used by the source only through
  membership tests, so they are modelled by the decidable predicate sees below,
  which holds exactly for the pairs the constructor links (same row, column or
  box, never the cell itself).
-/

/-- State of one Cell: the mutable fields isSolved, digit, options of the
    Python class (id, row, col, box are determined by the index and are not
    stored). -/
structure CellS where
  isSolved : Bool
  digit : Nat
  options : List Nat
deriving DecidableEq, Repr

/-- A board assigns to every linear index the state of that cell.  Only the
    indices 0..80 are meaningful. -/
def Board : Type := Nat → CellS

/-- Cell.__init__ with digit=None: not solved, digit 0, options 1..9. -/
def initCell : CellS := { isSolved := false, digit := 0, options := [1, 2, 3, 4, 5, 6, 7, 8, 9] }

/-- Puzzle.__init__: every cell starts fresh. -/
def initBoard : Board := fun _ => initCell

def rowOf (i : Nat) : Nat := i / 9

def colOf (i : Nat) : Nat := i % 9

def boxOf (i : Nat) : Nat := (rowOf i / 3) * 3 + (colOf i / 3)

/-- Membership in the sees list built by Puzzle.__init__ via add_sees: two
    distinct cells that share a row, a column or a box. -/
def sees (i j : Nat) : Bool :=
  decide (i ≠ j) &&
    (decide (rowOf i = rowOf j) || decide (colOf i = colOf j) || decide (boxOf i = boxOf j))

/-- The cells list of the Puzzle, in construction order (row major). -/
def allCells : List Nat := List.range 81

/-- Row house r, in the order self.rows stores it. -/
def rowCellsL (r : Nat) : List Nat := (List.range 9).map (fun c => r * 9 + c)

/-- Column house c, in the order self.columns stores it. -/
def colCellsL (c : Nat) : List Nat := (List.range 9).map (fun r => r * 9 + c)

/-- Box house k, in the order self.boxes stores it (construction appends cells
    in row-major order, which is the filter order below). -/
def boxCellsL (k : Nat) : List Nat := (List.range 81).filter (fun i => decide (boxOf i = k))

def rowsL : List (List Nat) := (List.range 9).map rowCellsL

def columnsL : List (List Nat) := (List.range 9).map colCellsL

def boxesL : List (List Nat) := (List.range 9).map boxCellsL

/-- The houses in the scan order used by check_hidden_singles and
    check_naked_n_tuples: boxes, then rows, then columns. -/
def housesAll : List (List Nat) := boxesL ++ rowsL ++ columnsL

def RED : Nat × Nat × Nat := (255, 0, 0)

def GREEN : Nat × Nat × Nat := (0, 255, 0)

def BLUE : Nat × Nat × Nat := (0, 0, 255)

/-- The Highlight dataclass (cell is its index). -/
structure Highlight where
  cell : Nat
  cellColor : Option (Nat × Nat × Nat)
  digitColors : List (Nat × (Nat × Nat × Nat))
deriving DecidableEq, Repr

/-- The Elimination dataclass.  Cells are given by index; is_useful defaults
    to False exactly as in the dataclass field declaration. -/
structure Elimination where
  solved_cells : List (Nat × Nat)
  eliminated_candidates : List (Nat × Nat)
  message : String
  highlights : List Highlight
  is_useful : Bool := false
deriving DecidableEq, Repr

/-- Puzzle.add_clue after its range checks have passed (the source raises
    ValueError for row, col outside 0..8 or digit outside 1..9 before touching
    any state; callers below only take this step under those bounds): the
    target cell becomes solved with the digit and cleared options, and the
    digit is removed from the options of every cell the target sees.  The
    source guards the removal with a membership test, which is the behaviour
    of List.erase. -/
def add_clue (b : Board) (row col digit : Nat) : Board :=
  fun j =>
    if j = row * 9 + col then
      { b j with isSolved := true, digit := digit, options := [] }
    else if sees (row * 9 + col) j then
      { b j with options := (b j).options.erase digit }
    else b j

/-- Puzzle.is_solved. -/
def is_solved (b : Board) : Bool := (List.range 81).all (fun i => (b i).isSolved)

/-- Result of Puzzle.apply_elimination: the board after the call, whether the
    call returned normally (ok = false models the ValueError that
    list.remove raises on a missing element, which aborts the remaining
    pairs), and the returned value (meaningful when ok holds). -/
structure ApplyRes where
  board : Board
  ok : Bool
  ret : Bool

/-- Puzzle.apply_elimination: each (cell, digit) of solved_cells marks the
    cell solved, sets options to the one-element list of that digit (the
    source assigns c.options = d in brackets, it does not clear), and sets the
    digit; then each (cell, digit) of eliminated_candidates is removed with
    list.remove, which raises when the digit is absent.  Returns
    elim.is_useful. -/
def apply_elimination (b : Board) (elim : Elimination) : ApplyRes :=
  let b1 : Board := elim.solved_cells.foldl
    (fun acc p =>
      fun j => if j = p.1 then { acc p.1 with isSolved := true, options := [p.2], digit := p.2 } else acc j)
    b
  let r2 : Board × Bool := elim.eliminated_candidates.foldl
    (fun acc p =>
      if acc.2 = true then
        if p.2 ∈ (acc.1 p.1).options then
          (fun j => if j = p.1 then { acc.1 p.1 with options := (acc.1 p.1).options.erase p.2 } else acc.1 j,
           true)
        else (acc.1, false)
      else acc)
    (b1, true)
  { board := r2.1, ok := r2.2, ret := elim.is_useful }

/-- Puzzle.check_solved_cells (naked singles): scans every cell once; a cell
    whose options list has exactly one element is recorded as a solved cell
    with that element (options, index 0).  The board is returned unchanged:
    the method reads only.  Interpolated details of the log message are
    omitted. -/
def check_solved_cells (b : Board) : Board × Elimination :=
  (b,
    (List.range 81).foldl
      (fun e i =>
        if (b i).options.length = 1 then
          let d := (b i).options.headD 0
          { e with
              solved_cells := e.solved_cells ++ [(i, d)],
              highlights := e.highlights ++ [{ cell := i, cellColor := none, digitColors := [(d, GREEN)] }],
              is_useful := true }
        else e)
      { solved_cells := [], eliminated_candidates := [],
        message := "Naked singles, the following digits can be placed:", highlights := [],
        is_useful := false })

/-- Puzzle.check_hidden_singles: for each digit 1..9 and each house (boxes,
    rows, columns in that order), if exactly one cell of the house still has
    the digit among its options, that cell is recorded as solved with the
    digit.  Read only; message interpolation omitted. -/
def check_hidden_singles (b : Board) : Board × Elimination :=
  (b,
    (List.range' 1 9).foldl
      (fun e digit =>
        housesAll.foldl
          (fun e house =>
            let possibilities := house.filter (fun i => decide (digit ∈ (b i).options))
            if possibilities.length = 1 then
              let i := possibilities.headD 0
              { e with
                  solved_cells := e.solved_cells ++ [(i, digit)],
                  highlights := e.highlights ++ [{ cell := i, cellColor := none, digitColors := [(digit, GREEN)] }],
                  is_useful := true }
            else e)
          e)
      { solved_cells := [], eliminated_candidates := [],
        message := "Hidden singles, the following digits can be placed:", highlights := [],
        is_useful := false })

/-- Body of the double loop of Puzzle.check_pointing_pairs for one digit and
    one box: the cells of the box still carrying the digit; when there are 2
    or 3 of them, the cells seen by all of them (the source intersects the
    sees lists as sets, so only membership matters) that still carry the digit
    are eliminated, and an Elimination with is_useful=True is produced when at
    least one such cell exists. -/
def pointingFor (b : Board) (digit k : Nat) : Option Elimination :=
  let remaining_options := (boxCellsL k).filter (fun c => decide (digit ∈ (b c).options))
  if remaining_options.length = 2 ∨ remaining_options.length = 3 then
    let seen_by_all := (List.range 81).filter (fun j => remaining_options.all (fun i => sees i j))
    let eliminated_cells := seen_by_all.filter (fun j => decide (digit ∈ (b j).options))
    if eliminated_cells.isEmpty then none
    else
      some
        { solved_cells := [],
          eliminated_candidates := eliminated_cells.map (fun c => (c, digit)),
          message := "Pointing pair",
          highlights := eliminated_cells.map (fun c => { cell := c, cellColor := none, digitColors := [(digit, RED)] }),
          is_useful := true }
  else none

/-- Puzzle.check_pointing_pairs: digits 1..9 outer, boxes inner, collecting
    the Eliminations in that order.  Read only. -/
def check_pointing_pairs (b : Board) : Board × List Elimination :=
  (b, (List.range' 1 9).flatMap (fun digit => (List.range 9).filterMap (fun k => pointingFor b digit k)))

/-- One execution of the while body of Puzzle.check_box_line_reduction:
    digits 1..9, then rows and columns; a line whose cells carrying the digit
    all lie in one box yields the box cells off that line that still carry the
    digit; when there are any, an Elimination is appended (with is_useful left
    at its default False, as in the source, which passes no is_useful) and the
    pass is marked successful.  The body never writes to the board. -/
def boxLinePass (b : Board) : List Elimination × Bool :=
  (List.range' 1 9).foldl
    (fun acc digit =>
      [rowsL, columnsL].foldl
        (fun acc houseGroup =>
          (List.range 9).foldl
            (fun acc i =>
              let line := houseGroup.getD i []
              let remaining_options := line.filter (fun c => decide (digit ∈ (b c).options))
              let boxesFound := (remaining_options.map boxOf).dedup
              if boxesFound.length = 1 then
                let elims := (boxCellsL (boxOf (remaining_options.headD 0))).filter
                  (fun c => decide (c ∉ line) && decide (digit ∈ (b c).options))
                if elims.isEmpty then acc
                else
                  (acc.1 ++
                    [{ solved_cells := [],
                       eliminated_candidates := elims.map (fun c => (c, digit)),
                       message := "Box line reduction",
                       highlights := elims.map (fun c => { cell := c, cellColor := none, digitColors := [(digit, RED)] }) }],
                   true)
              else acc)
            acc)
        acc)
    ([], false)

/-- The while loop of Puzzle.check_box_line_reduction, indexed by fuel: the
    source loops while pass_successful, and since the body never changes the
    board, a successful pass repeats forever; none models that no amount of
    fuel reaches the exit. -/
def boxLineLoop : Nat → Board → List Elimination → Option (List Elimination)
  | 0, _, _ => none
  | fuel + 1, b, acc =>
    if (boxLinePass b).2 = true then boxLineLoop fuel b (acc ++ (boxLinePass b).1)
    else some (acc ++ (boxLinePass b).1)

/-- Puzzle.check_box_line_reduction with explicit fuel for its while loop.
    The board is returned unchanged: the method reads only. -/
def check_box_line_reduction (fuel : Nat) (b : Board) : Board × Option (List Elimination) :=
  (b, boxLineLoop fuel b [])

/-- Total number of candidates over all 81 cells, the quantity of the
    monotonicity property in the spec. -/
def totalCandidates (b : Board) : Nat :=
  ((List.range 81).map (fun i => ((b i).options).length)).sum

/-- itertools.combinations: all sorted selections of n elements of l, in the
    enumeration order of itertools (the source wraps the iterator in set(),
    which only removes duplicates, of which there are none here). -/
def combinations : Nat → List α → List (List α)
  | 0, _ => [[]]
  | _ + 1, [] => []
  | n + 1, x :: xs => (combinations n xs).map (fun t => x :: t) ++ combinations (n + 1) xs

/-- Removal of one candidate from one cell, c.options.remove(d) for a digit
    known to be present (the naked-tuple code only removes digits it has just
    found in the options). -/
def removeOption (b : Board) (c d : Nat) : Board :=
  fun j => if j = c then { b c with options := (b c).options.erase d } else b j

/-- The Elimination appended by check_naked_n_tuples for one found tuple,
    given the dictionary digit to eliminated cells (elims in the source):
    eliminated_candidates lists the pairs digit-major, exactly the
    comprehension of line 408. -/
def nakedElim (elimsFor : List (Nat × List Nat)) : Elimination :=
  { solved_cells := [],
    eliminated_candidates := elimsFor.flatMap (fun p => p.2.map (fun c => (c, p.1))),
    message := "Naked n-tuple found, the following can be eliminated:",
    highlights := elimsFor.flatMap
      (fun p => p.2.map (fun c => { cell := c, cellColor := none, digitColors := [(p.1, RED)] })),
    is_useful := true }

/-- Innermost loop of check_naked_n_tuples, over the combinations of n cells
    of a house for one fixed digit combination: a combination with no solved
    cell whose every options list is inside the digit set has the digits
    removed from every other cell of the house that carries them (the source
    mutates the cells in place, lines 403..405, before appending the
    Elimination with is_useful=True); the loop state is the current board,
    the Eliminations appended so far, and pass_successful. -/
def nakedTupleCells (digits house : List Nat) :
    List (List Nat) → Board → List Elimination → Bool → Board × List Elimination × Bool
  | [], b, es, succ => (b, es, succ)
  | cells :: rest, b, es, succ =>
    if cells.any (fun c => (b c).isSolved) then nakedTupleCells digits house rest b es succ
    else if cells.all (fun c => (b c).options.all (fun o => decide (o ∈ digits))) then
      let elimsFor := digits.map
        (fun d => (d, house.filter (fun c => decide (c ∉ cells) && decide (d ∈ (b c).options))))
      if elimsFor.any (fun p => !p.2.isEmpty) then
        nakedTupleCells digits house rest
          (elimsFor.foldl (fun bb p => p.2.foldl (fun bb2 c => removeOption bb2 c p.1) bb) b)
          (es ++ [nakedElim elimsFor]) true
      else nakedTupleCells digits house rest b es succ
    else nakedTupleCells digits house rest b es succ

/-- Loop of check_naked_n_tuples over the combinations of n digits for one
    house. -/
def nakedTupleDigits (n : Nat) (house : List Nat) :
    List (List Nat) → Board → List Elimination → Bool → Board × List Elimination × Bool
  | [], b, es, succ => (b, es, succ)
  | digits :: rest, b, es, succ =>
    match nakedTupleCells digits house (combinations n house) b es succ with
    | (b2, es2, succ2) => nakedTupleDigits n house rest b2 es2 succ2

/-- Loop of check_naked_n_tuples over the houses (boxes, rows, columns). -/
def nakedTupleHouses (n : Nat) :
    List (List Nat) → Board → List Elimination → Bool → Board × List Elimination × Bool
  | [], b, es, succ => (b, es, succ)
  | house :: rest, b, es, succ =>
    match nakedTupleDigits n house (combinations n (List.range' 1 9)) b es succ with
    | (b2, es2, succ2) => nakedTupleHouses n rest b2 es2 succ2

/-- One execution of the while body of Puzzle.check_naked_n_tuples. -/
def nakedPass (n : Nat) (b0 : Board) : Board × List Elimination × Bool :=
  nakedTupleHouses n housesAll b0 [] false

/-- The while loop of check_naked_n_tuples.  Each successful pass removes at
    least one candidate from the board, so fuel totalCandidates + 1 always
    reaches the exit; none is returned if fuel runs out. -/
def nakedLoop (n : Nat) : Nat → Board → List Elimination → Option (Board × List Elimination)
  | 0, _, _ => none
  | fuel + 1, b, acc =>
    match nakedPass n b with
    | (b2, es, succ) => if succ = true then nakedLoop n fuel b2 (acc ++ es) else some (b2, acc ++ es)

/-- Puzzle.check_naked_n_tuples: raises ValueError for n below 2 before
    reading any board state; otherwise runs its scan loop to the fixed point.
    The result carries the board because the method removes candidates in
    place. -/
def check_naked_n_tuples (n : Nat) (b : Board) : Except String (Option (Board × List Elimination)) :=
  if n < 2 then Except.error "Cannot check for naked n-tuples with n<2 in this function"
  else Except.ok (nakedLoop n (totalCandidates b + 1) b [])

/-- Puzzle.import_board.  The Python method is executed with two distinct
    objects in scope: self, the instance the method was invoked on, and the
    module-global variable named puzzle; line 128 calls puzzle.add_clue, not
    self.add_clue, so the clues land on the global board while self is only
    reset by self.__init__().  This definition models the general call where
    the receiver is not that global object (when it is, the two boards
    coincide); the module-level global exists only when the file runs as a
    script, otherwise the call raises NameError, which this model does not
    distinguish from mutating a separate object.  The length check precedes
    the reset; the character check happens during the enumeration, after
    earlier clues were already applied; int(c) for c in 1..9 always passes
    the add_clue range checks. -/
def import_board (selfB globalB : Board) (board_str : List Char) :
    Except String (Board × Board) :=
  if board_str.length ≠ 81 then Except.error "Length of a board string must equal to 81"
  else
    let selfReset : Board := initBoard
    let r : Except String Board := board_str.enum.foldl
      (fun acc ic =>
        match acc with
        | Except.error e => Except.error e
        | Except.ok g =>
          if ic.2 = '0' then Except.ok g
          else if ¬ ('0' < ic.2 ∧ ic.2 ≤ '9') then Except.error "Character at index is not 0-9"
          else Except.ok (add_clue g (rowOf ic.1) (colOf ic.1) (ic.2.toNat - '0'.toNat)))
      (Except.ok globalB)
    match r with
    | Except.error e => Except.error e
    | Except.ok g => Except.ok (selfReset, g)

/-- Projection of a check_naked_n_tuples result onto the board it left
    behind (some only for a normal return whose loop reached its exit). -/
def nakedResultBoard (r : Except String (Option (Board × List Elimination))) : Option Board :=
  match r with
  | Except.ok (some p) => some p.1
  | _ => none

/-- Boards reachable through the public state-changing operations that
    propagate to peers: construction and add_clue calls whose range checks
    pass (import_board only composes these two). -/
inductive Reach : Board → Prop
  | init : Reach initBoard
  | place (b : Board) (row col digit : Nat) :
      Reach b → row < 9 → col < 9 → 1 ≤ digit → digit ≤ 9 → Reach (add_clue b row col digit)

/-- The first invariant of spec section 8: every solved cell has its digit
    absent from the options of each unsolved cell it sees. -/
def seesAllPeersCleared (b : Board) : Prop :=
  ∀ i < 81, (b i).isSolved = true →
    ∀ j < 81, sees i j = true → (b j).isSolved = false → (b i).digit ∉ (b j).options

instance (b : Board) : Decidable (seesAllPeersCleared b) :=
  Nat.decidableBallLT 81 _

/-- One state change of the kind the solve driver performs: a place_clue call
    with in-range arguments, or an apply_elimination call whose argument is a
    detector result.  The single-Elimination detectors (naked singles, hidden
    singles) are applied to the board they scanned; the multi-Elimination
    detectors (pointing pairs, box line reduction, naked n-tuples) only ever
    produce results with empty solved_cells, and the driver applies the later
    elements of such a batch to a board already changed by the earlier ones,
    which the no_solved constructor covers for any such result. -/
inductive SolveStep (b : Board) : Board → Prop
  | place (row col digit : Nat) :
      row < 9 → col < 9 → 1 ≤ digit → digit ≤ 9 → SolveStep b (add_clue b row col digit)
  | naked_singles : SolveStep b (apply_elimination b (check_solved_cells b).2).board
  | hidden_singles : SolveStep b (apply_elimination b (check_hidden_singles b).2).board
  | pointing_pairs (e : Elimination) :
      e ∈ (check_pointing_pairs b).2 → SolveStep b (apply_elimination b e).board
  | box_line (e : Elimination) :
      e ∈ (boxLinePass b).1 → SolveStep b (apply_elimination b e).board
  | no_solved (e : Elimination) :
      e.solved_cells = [] → SolveStep b (apply_elimination b e).board

/-- A finite sequence of such state changes. -/
inductive SolveSeq : Board → Board → Prop
  | refl (b : Board) : SolveSeq b b
  | step (b1 b2 b3 : Board) : SolveSeq b1 b2 → SolveStep b2 b3 → SolveSeq b1 b3

/-- Board used against claim C1 and C5: a fresh puzzle with clue 5 placed at
    rows 3 and 4, columns 3..8 (row, col, digit triples below, 0 based).  On
    this board digit 5 on each of the rows 0..2 is confined to box 0, with
    eliminable candidates inside the box, so every box-line pass is
    successful. -/
def c5board : Board :=
  [(3, 3, 5), (3, 4, 5), (3, 5, 5), (4, 6, 5), (4, 7, 5), (4, 8, 5)].foldl
    (fun b t => add_clue b t.1 t.2.1 t.2.2) initBoard

/-- Board used against claims C3 and C4: clues 1..8 placed along row 0 at
    columns 1..8, leaving cell r1c1 (index 0) with the single option 9 while
    its peers in other rows still carry 9. -/
def b3cex : Board :=
  [(0, 1, 1), (0, 2, 2), (0, 3, 3), (0, 4, 4), (0, 5, 5), (0, 6, 6), (0, 7, 7), (0, 8, 8)].foldl
    (fun b t => add_clue b t.1 t.2.1 t.2.2) initBoard

/-- Board used against claim C2: cells 0 and 1 form a naked pair on digits
    1, 2 in box 0 and row 0; everything else is fresh. -/
def c2board : Board := fun j =>
  if j = 0 ∨ j = 1 then { isSolved := false, digit := 0, options := [1, 2] } else initCell

/-- Board used for the C9 witness: in box 0 digit 5 is confined to cells 0
    and 1; the other box 0 cells lack 5; everything else is fresh. -/
def c9board : Board := fun j =>
  if j = 2 ∨ j = 9 ∨ j = 10 ∨ j = 11 ∨ j = 18 ∨ j = 19 ∨ j = 20 then
    { isSolved := false, digit := 0, options := [1, 2, 3, 4, 6, 7, 8, 9] }
  else initCell

/-- Board used against claim C7: one clue removes digit 5 from the options
    of cell 0. -/
def b7board : Board := add_clue initBoard 0 1 5

/-- An Elimination asking to remove a digit that cell 0 no longer has. -/
def e7elim : Elimination :=
  { solved_cells := [], eliminated_candidates := [(0, 5)], message := "", highlights := [],
    is_useful := true }

/-- The valid clue string of 81 characters: digit 5 at index 0, blanks
    elsewhere. -/
def c6string : List Char := '5' :: List.replicate 80 '0'

/-- An Elimination carrying one single candidate removal, the unit the claim
    about apply_elimination and eliminated_candidates quantifies over. -/
def singleRemoval (c d : Nat) (msg : String) (hl : List Highlight) (u : Bool) : Elimination :=
  { solved_cells := [], eliminated_candidates := [(c, d)], message := msg, highlights := hl,
    is_useful := u }

set_option maxRecDepth 100000

/-- C1: the claim fails on the code.  On c5board, built from a fresh puzzle
    by six in-range add_clue calls and reached by solve_puzzle (naked
    singles, hidden singles and pointing pairs yield nothing useful there),
    the while loop of check_box_line_reduction runs forever: the body marks
    pass_successful whenever a reduction exists but never changes any state,
    so no amount of fuel reaches the loop exit. -/
theorem C1_box_line_reduction_diverges :
    ∀ (fuel : Nat) (acc : List Elimination), boxLineLoop fuel c5board acc = none := by
  intro fuel
  induction fuel with
  | zero => intro acc; rfl
  | succ f ih =>
    intro acc
    have h : (boxLinePass c5board).2 = true := by decide
    simp only [boxLineLoop, h, if_true]
    exact ih _

/-- C4: evaluation at the failing input.  Applying the naked-single result of
    check_solved_cells on b3cex leaves cell 0 solved with digit 9 but with
    options [9]: apply_elimination assigns the one-element list instead of
    clearing the candidate set, contradicting the claimed invariant. -/
theorem C4_apply_elimination_keeps_candidate :
    ((apply_elimination b3cex (check_solved_cells b3cex).2).board 0).isSolved = true ∧
    ((apply_elimination b3cex (check_solved_cells b3cex).2).board 0).digit = 9 ∧
    ((apply_elimination b3cex (check_solved_cells b3cex).2).board 0).options = [9] := by
  decide

/-- C5: evaluation at the failing input.  On c5board a box-line pass builds
    Eliminations whose eliminated_candidates are non-empty while is_useful is
    left at its default False, contradicting the documented meaning of
    is_useful. -/
theorem C5_box_line_not_useful :
    (boxLinePass c5board).1 ≠ [] ∧
    ∀ e ∈ (boxLinePass c5board).1, e.is_useful = false ∧ e.eliminated_candidates ≠ [] := by
  decide

/-- C6: evaluation at the failing input.  Importing the valid string with a 5
    at index 0 on a receiver distinct from the module-global puzzle returns
    normally, but the receiver ends as a fresh board with no solved cell at
    all, while the clue lands on the global board: line 128 calls
    puzzle.add_clue instead of self.add_clue. -/
theorem C6_import_board_mutates_global :
    (import_board b7board initBoard c6string).toOption.map
        (fun p => ((List.range 81).all (fun i => !(p.1 i).isSolved), (p.2 0).isSolved, (p.2 0).digit))
      = some (true, true, 5) := by
  decide

/-- C7 counterexample: the claim fails on the code.  Asking apply_elimination
    to eliminate digit 5 from cell 0 of b7board, where 5 is already absent,
    raises ValueError (list.remove on a missing element) instead of
    succeeding as a no-op. -/
theorem C7_counterexample : (apply_elimination b7board e7elim).ok = false := by
  decide

/-- C3 counterexample: the claim fails on the code.  The board reached from a
    fresh puzzle by eight add_clue calls followed by apply_elimination of the
    check_solved_cells result violates the invariant: cell 0 is solved with
    digit 9 while its unsolved peer, cell 9, still carries candidate 9,
    because the solved-cell path of apply_elimination performs no peer
    removal. -/
theorem C3_counterexample :
    ¬ seesAllPeersCleared (apply_elimination b3cex (check_solved_cells b3cex).2).board := by
  decide

/-- C2 counterexample: the claim fails on the code.  check_naked_n_tuples 2
    on c2board returns normally, and the board after the call differs from
    the board before it: the naked pair 1, 2 in cells 0 and 1 makes the
    detector itself erase candidates 1 and 2 from cell 2 (options drop from
    1..9 to 3..9), so the detector mutates state instead of only reporting. -/
theorem C2_counterexample :
    (nakedResultBoard (check_naked_n_tuples 2 c2board)).map (fun bb => (bb 2).options)
        = some [3, 4, 5, 6, 7, 8, 9] ∧
    (c2board 2).options = [1, 2, 3, 4, 5, 6, 7, 8, 9] := by
  decide

/-- C2 amended: the read-only detectors.  check_solved_cells,
    check_hidden_singles, check_pointing_pairs and check_box_line_reduction
    return the board they scanned unchanged; check_naked_n_tuples (like
    check_y_wing, source line 479) instead removes candidates in place, as
    the counterexample shows. -/
theorem C2_read_only_detectors :
    ∀ (b : Board) (fuel : Nat),
      (check_solved_cells b).1 = b ∧ (check_hidden_singles b).1 = b ∧
      (check_pointing_pairs b).1 = b ∧ (check_box_line_reduction fuel b).1 = b :=
  fun _ _ => ⟨rfl, rfl, rfl, rfl⟩

/-- C10: check_naked_n_tuples raises ValueError exactly for n below 2, before
    reading any board state (the error return carries no board, the board is
    untouched); for n of at least 2 the call returns normally and that error
    is never raised. -/
theorem C10_naked_n_tuples_guard (n : Nat) (b : Board) :
    (n < 2 → check_naked_n_tuples n b
        = Except.error "Cannot check for naked n-tuples with n<2 in this function") ∧
    (2 ≤ n → ∃ v, check_naked_n_tuples n b = Except.ok v) := by
  constructor
  · intro h
    simp [check_naked_n_tuples, h]
  · intro h
    refine ⟨nakedLoop n (totalCandidates b + 1) b [], ?_⟩
    simp [check_naked_n_tuples, Nat.not_lt.mpr h]

/-- C10 witness: the guard observed at n = 1 on the fresh board. -/
theorem C10_witness :
    check_naked_n_tuples 1 initBoard
      = Except.error "Cannot check for naked n-tuples with n<2 in this function" :=
  (C10_naked_n_tuples_guard 1 initBoard).1 (by decide)

/-- Pointwise value of add_clue at its target cell. -/
theorem add_clue_at_target (b : Board) (row col digit : Nat) :
    add_clue b row col digit (row * 9 + col)
      = { b (row * 9 + col) with isSolved := true, digit := digit, options := [] } := by
  simp [add_clue]

/-- A cell never sees itself. -/
theorem sees_irrefl (i : Nat) : sees i i = false := by
  simp [sees]

/-- Pointwise value of add_clue at a cell the target sees. -/
theorem add_clue_at_seen (b : Board) (row col digit j : Nat)
    (h : sees (row * 9 + col) j = true) :
    add_clue b row col digit j = { b j with options := ((b j).options).erase digit } := by
  have hne : ¬ j = row * 9 + col := by
    intro he
    rw [he, sees_irrefl] at h
    cases h
  simp [add_clue, hne, h]

/-- Pointwise value of add_clue away from its target and the seen cells. -/
theorem add_clue_at_other (b : Board) (row col digit j : Nat)
    (h1 : ¬ j = row * 9 + col) (h2 : sees (row * 9 + col) j = false) :
    add_clue b row col digit j = b j := by
  simp [add_clue, h1, h2]

/-- Reachable boards never hold a duplicated candidate: options only ever
    shrink from the duplicate-free initial list. -/
theorem reach_options_nodup (b : Board) (h : Reach b) : ∀ j, ((b j).options).Nodup := by
  induction h with
  | init =>
    intro j
    show ([1, 2, 3, 4, 5, 6, 7, 8, 9] : List Nat).Nodup
    decide
  | place b row col digit hb hr hc h1 h2 ih =>
    intro j
    by_cases ht : j = row * 9 + col
    · rw [ht, add_clue_at_target]
      exact List.nodup_nil
    · by_cases hs : sees (row * 9 + col) j = true
      · rw [add_clue_at_seen b row col digit j hs]
        exact (ih j).erase digit
      · rw [add_clue_at_other b row col digit j ht (Bool.not_eq_true _ ▸ hs)]
        exact ih j

/-- add_clue preserves the peer-cleared invariant: the new clue digit is
    erased from every seen cell, the target becomes solved, and every other
    cell keeps its flag and digit while its options can only lose members. -/
theorem seesAllPeersCleared_add_clue (b : Board) (row col digit : Nat)
    (hnd : ∀ j, ((b j).options).Nodup) (hb : seesAllPeersCleared b) :
    seesAllPeersCleared (add_clue b row col digit) := by
  intro i hi hisol j hj hsee hjuns
  by_cases hjt : j = row * 9 + col
  · rw [hjt, add_clue_at_target] at hjuns
    cases hjuns
  · have hjval : add_clue b row col digit j = b j ∨
        add_clue b row col digit j = { b j with options := ((b j).options).erase digit } := by
      by_cases hs : sees (row * 9 + col) j = true
      · exact Or.inr (add_clue_at_seen b row col digit j hs)
      · exact Or.inl (add_clue_at_other b row col digit j hjt (Bool.not_eq_true _ ▸ hs))
    by_cases hit : i = row * 9 + col
    · have hsj : sees (row * 9 + col) j = true := hit ▸ hsee
      rw [hit, add_clue_at_target]
      rw [add_clue_at_seen b row col digit j hsj]
      intro hmem
      exact (((hnd j).mem_erase_iff).mp hmem).1 rfl
    · have hieq : add_clue b row col digit i = b i ∨
          add_clue b row col digit i = { b i with options := ((b i).options).erase digit } := by
        by_cases hs : sees (row * 9 + col) i = true
        · exact Or.inr (add_clue_at_seen b row col digit i hs)
        · exact Or.inl (add_clue_at_other b row col digit i hit (Bool.not_eq_true _ ▸ hs))
      have hisol' : (b i).isSolved = true := by
        rcases hieq with hv | hv <;> rw [hv] at hisol <;> exact hisol
      have hdig : (add_clue b row col digit i).digit = (b i).digit := by
        rcases hieq with hv | hv <;> rw [hv]
      have hjuns' : (b j).isSolved = false := by
        rcases hjval with hv | hv <;> rw [hv] at hjuns <;> exact hjuns
      have hbase := hb i hi hisol' j hj hsee hjuns'
      rw [hdig]
      rcases hjval with hv | hv
      · rw [hv]
        exact hbase
      · rw [hv]
        intro hmem
        exact hbase (List.mem_of_mem_erase hmem)

/-- C3 amended: the peer-cleared invariant holds for every board reachable
    through construction and in-range place_clue calls (import_board only
    composes these); the solved-cell path of apply_elimination performs no
    peer removal and can break the invariant, as the counterexample shows. -/
theorem C3_invariant_reachable (b : Board) (h : Reach b) : seesAllPeersCleared b := by
  induction h with
  | init => decide
  | place b row col digit hb hr hc h1 h2 ih =>
    exact seesAllPeersCleared_add_clue b row col digit (reach_options_nodup b hb) ih

/-- C3 amended witness: the invariant observed after one clue on the fresh
    board. -/
theorem C3_invariant_witness : seesAllPeersCleared (add_clue initBoard 0 0 5) :=
  C3_invariant_reachable _
    (Reach.place _ 0 0 5 Reach.init (by decide) (by decide) (by decide) (by decide))

/-- C7 amended: for a (cell, digit) pair of eliminated_candidates,
    apply_elimination removes the digit from the candidate set of the cell
    when it is present (other cells untouched, return value is_useful), but
    raises ValueError when it is absent, leaving every cell unchanged,
    instead of succeeding as a no-op. -/
theorem C7_apply_elimination_removal (b : Board) (c d : Nat) (msg : String)
    (hl : List Highlight) (u : Bool) :
    (d ∈ (b c).options →
      (apply_elimination b (singleRemoval c d msg hl u)).ok = true ∧
      (apply_elimination b (singleRemoval c d msg hl u)).ret = u ∧
      ((apply_elimination b (singleRemoval c d msg hl u)).board c).options
          = ((b c).options).erase d ∧
      ∀ j, ¬ j = c → (apply_elimination b (singleRemoval c d msg hl u)).board j = b j) ∧
    (d ∉ (b c).options →
      (apply_elimination b (singleRemoval c d msg hl u)).ok = false ∧
      ∀ j, (apply_elimination b (singleRemoval c d msg hl u)).board j = b j) := by
  constructor
  · intro hm
    refine ⟨?_, ?_, ?_, ?_⟩
    · simp [apply_elimination, singleRemoval, hm]
    · simp [apply_elimination, singleRemoval]
    · simp [apply_elimination, singleRemoval, hm]
    · intro j hj
      simp [apply_elimination, singleRemoval, hm, hj]
  · intro hm
    constructor
    · simp [apply_elimination, singleRemoval, hm]
    · intro j
      simp [apply_elimination, singleRemoval, hm]

/-- C7 amended witness: on the fresh board, removing candidate 5 of cell 0
    succeeds, ends with 5 gone, and returns the is_useful flag. -/
theorem C7_amended_witness :
    (apply_elimination initBoard (singleRemoval 0 5 "" [] true)).ok = true ∧
    ((apply_elimination initBoard (singleRemoval 0 5 "" [] true)).board 0).options
      = [1, 2, 3, 4, 6, 7, 8, 9] := by
  have h := (C7_apply_elimination_removal initBoard 0 5 "" [] true).1 (by decide)
  refine ⟨h.1, ?_⟩
  rw [h.2.2.1]
  decide

/-- A foldl preserves any property its step preserves. -/
theorem foldl_preserve {σ α : Type} (P : σ → Prop) (f : σ → α → σ) :
    ∀ (l : List α) (s : σ), P s → (∀ s a, P s → P (f s a)) → P (l.foldl f s) := by
  intro l
  induction l with
  | nil => intro s hs _; exact hs
  | cons a rest ih => intro s hs hf; exact ih (f s a) (hf s a hs) hf

/-- add_clue never lengthens any options list: it clears the target, erases
    from seen cells and leaves the rest alone. -/
theorem add_clue_options_length_le (b : Board) (row col digit j : Nat) :
    ((add_clue b row col digit j).options).length ≤ ((b j).options).length := by
  by_cases ht : j = row * 9 + col
  · rw [ht, add_clue_at_target]
    simp
  · by_cases hs : sees (row * 9 + col) j = true
    · rw [add_clue_at_seen b row col digit j hs]
      exact List.length_erase_le digit ((b j).options)
    · rw [add_clue_at_other b row col digit j ht (Bool.not_eq_true _ ▸ hs)]

/-- Pointwise shorter options give a smaller total candidate count. -/
theorem totalCandidates_mono (b b' : Board)
    (h : ∀ j, ((b' j).options).length ≤ ((b j).options).length) :
    totalCandidates b' ≤ totalCandidates b := by
  unfold totalCandidates
  exact List.sum_le_sum (fun i _ => h i)

/-- The solved-cell loop of apply_elimination never lengthens any options
    list, provided every targeted cell had a non-empty options list in the
    starting board: each write replaces a list of length at least one with a
    one-element list. -/
theorem solved_fold_length_le (b : Board) :
    ∀ (l : List (Nat × Nat)) (acc : Board),
      (∀ j, ((acc j).options).length ≤ ((b j).options).length) →
      (∀ p ∈ l, (b p.1).options ≠ []) →
      ∀ j,
        (((l.foldl
            (fun acc p =>
              fun j => if j = p.1 then { acc p.1 with isSolved := true, options := [p.2], digit := p.2 } else acc j)
            acc) j).options).length ≤ ((b j).options).length := by
  intro l
  induction l with
  | nil => intro acc hacc _ j; exact hacc j
  | cons p rest ih =>
    intro acc hacc hl j
    rw [List.foldl_cons]
    apply ih
    · intro j'
      by_cases hj' : j' = p.1
      · have hne : (b p.1).options ≠ [] := hl p (List.mem_cons_self p rest)
        have hpos : 0 < ((b p.1).options).length := List.length_pos.mpr hne
        simp only [hj', if_pos rfl]
        exact hpos
      · simp only [if_neg hj']
        exact hacc j'
    · intro p' hp'
      exact hl p' (List.mem_cons_of_mem p hp')

/-- The candidate-removal loop of apply_elimination never lengthens any
    options list, also across the abort on a missing candidate. -/
theorem elim_fold_length_le (b : Board) :
    ∀ (l : List (Nat × Nat)) (acc : Board × Bool),
      (∀ j, ((acc.1 j).options).length ≤ ((b j).options).length) →
      ∀ j,
        (((l.foldl
            (fun (acc : Board × Bool) (p : Nat × Nat) =>
              if acc.2 = true then
                if p.2 ∈ (acc.1 p.1).options then
                  (fun j => if j = p.1 then { acc.1 p.1 with options := (acc.1 p.1).options.erase p.2 } else acc.1 j,
                   true)
                else (acc.1, false)
              else acc)
            acc).1 j).options).length ≤ ((b j).options).length := by
  intro l
  induction l with
  | nil => intro acc hacc j; exact hacc j
  | cons p rest ih =>
    intro acc hacc j
    rw [List.foldl_cons]
    apply ih
    intro j'
    by_cases hok : acc.2 = true
    · by_cases hm : p.2 ∈ (acc.1 p.1).options
      · rw [if_pos hok, if_pos hm]
        show ((if j' = p.1 then _ else acc.1 j').options).length ≤ _
        by_cases hj' : j' = p.1
        · rw [if_pos hj', hj']
          exact le_trans (List.length_erase_le p.2 ((acc.1 p.1).options)) (hacc p.1)
        · rw [if_neg hj']
          exact hacc j'
      · rw [if_pos hok, if_neg hm]
        exact hacc j'
    · rw [if_neg hok]
      exact hacc j'

/-- apply_elimination never raises the total candidate count when every
    solved-cell target still had candidates: the solved path replaces a
    non-empty list by a one-element list, the removal path only erases. -/
theorem apply_elimination_total_le (b : Board) (e : Elimination)
    (h : ∀ p ∈ e.solved_cells, (b p.1).options ≠ []) :
    totalCandidates (apply_elimination b e).board ≤ totalCandidates b := by
  apply totalCandidates_mono
  intro j
  exact elim_fold_length_le b e.eliminated_candidates _
    (solved_fold_length_le b e.solved_cells b (fun _ => le_refl _) h) j

/-- Every solved cell reported by check_solved_cells had a non-empty options
    list on the scanned board (it had exactly one element). -/
theorem check_solved_cells_targets (b : Board) :
    ∀ p ∈ ((check_solved_cells b).2).solved_cells, (b p.1).options ≠ [] := by
  refine foldl_preserve (fun e : Elimination => ∀ p ∈ e.solved_cells, (b p.1).options ≠ [])
    _ (List.range 81) _ ?_ ?_
  · intro p hp
    cases hp
  · intro e i he
    by_cases hc : (b i).options.length = 1
    · rw [if_pos hc]
      intro p hp
      rcases List.mem_append.mp hp with hp | hp
      · exact he p hp
      · rcases List.mem_singleton.mp hp with rfl
        intro hnil
        rw [hnil] at hc
        cases hc
    · rw [if_neg hc]
      exact he

/-- Every solved cell reported by check_hidden_singles had a non-empty
    options list on the scanned board (it carried the digit). -/
theorem check_hidden_singles_targets (b : Board) :
    ∀ p ∈ ((check_hidden_singles b).2).solved_cells, (b p.1).options ≠ [] := by
  refine foldl_preserve (fun e : Elimination => ∀ p ∈ e.solved_cells, (b p.1).options ≠ [])
    _ (List.range' 1 9) _ ?_ ?_
  · intro p hp
    cases hp
  · intro e digit he
    refine foldl_preserve (fun e : Elimination => ∀ p ∈ e.solved_cells, (b p.1).options ≠ [])
      _ housesAll e he ?_
    intro e' house he'
    by_cases hc : (house.filter (fun i => decide (digit ∈ (b i).options))).length = 1
    · rw [if_pos hc]
      intro p hp
      rcases List.mem_append.mp hp with hp | hp
      · exact he' p hp
      · rcases List.mem_singleton.mp hp with rfl
        rcases List.length_eq_one.mp hc with ⟨a, ha⟩
        have hmem : a ∈ house.filter (fun i => decide (digit ∈ (b i).options)) := by
          rw [ha]
          exact List.mem_singleton.mpr rfl
        have hdig : digit ∈ (b a).options := by
          have := (List.mem_filter.mp hmem).2
          exact of_decide_eq_true this
        have hhd : (house.filter (fun i => decide (digit ∈ (b i).options))).headD 0 = a := by
          rw [ha]
          rfl
        rw [hhd]
        exact List.ne_nil_of_mem hdig
    · rw [if_neg hc]
      exact he'

/-- Every Elimination produced by check_pointing_pairs has empty
    solved_cells. -/
theorem check_pointing_pairs_no_solved (b : Board) :
    ∀ e ∈ (check_pointing_pairs b).2, e.solved_cells = [] := by
  intro e he
  have he' : e ∈ (List.range' 1 9).flatMap
      (fun digit => (List.range 9).filterMap (fun k => pointingFor b digit k)) := he
  rw [List.mem_flatMap] at he'
  obtain ⟨digit, _, he'⟩ := he'
  rw [List.mem_filterMap] at he'
  obtain ⟨k, _, hk⟩ := he'
  simp only [pointingFor] at hk
  split at hk
  · split at hk
    · cases hk
    · cases hk
      rfl
  · cases hk

/-- Every Elimination appended by a box-line pass has empty solved_cells. -/
theorem boxLinePass_no_solved (b : Board) :
    ∀ e ∈ (boxLinePass b).1, e.solved_cells = [] := by
  refine foldl_preserve
    (fun acc : List Elimination × Bool => ∀ e ∈ acc.1, e.solved_cells = [])
    _ (List.range' 1 9) _ ?_ ?_
  · intro e he
    cases he
  · intro acc digit hacc
    refine foldl_preserve
      (fun acc : List Elimination × Bool => ∀ e ∈ acc.1, e.solved_cells = [])
      _ [rowsL, columnsL] acc hacc ?_
    intro acc' houseGroup hacc'
    refine foldl_preserve
      (fun acc : List Elimination × Bool => ∀ e ∈ acc.1, e.solved_cells = [])
      _ (List.range 9) acc' hacc' ?_
    intro acc2 i hacc2
    dsimp only
    split
    · split
      · exact hacc2
      · intro e he
        rcases List.mem_append.mp he with he | he
        · exact hacc2 e he
        · rcases List.mem_singleton.mp he with rfl
          rfl
    · exact hacc2

/-- C8: along every sequence of place_clue and apply_elimination steps that
    the solve driver can perform, the total candidate count over the 81 cells
    never increases: place_clue only clears and erases options, and
    apply_elimination replaces the non-empty options of the reported singles
    by one-element lists and otherwise only erases, also when a missing
    candidate aborts it. -/
theorem C8_total_candidates_nonincreasing (b b2 : Board) (h : SolveSeq b b2) :
    totalCandidates b2 ≤ totalCandidates b := by
  induction h with
  | refl => exact le_refl _
  | step bmid bend hseq hstep ih =>
    refine le_trans ?_ ih
    cases hstep with
    | place row col digit hr hc h1 h2 =>
      exact totalCandidates_mono _ _ (fun j => add_clue_options_length_le bmid row col digit j)
    | naked_singles =>
      exact apply_elimination_total_le _ _ (check_solved_cells_targets bmid)
    | hidden_singles =>
      exact apply_elimination_total_le _ _ (check_hidden_singles_targets bmid)
    | pointing_pairs e he =>
      refine apply_elimination_total_le _ _ ?_
      intro p hp
      rw [check_pointing_pairs_no_solved bmid e he] at hp
      cases hp
    | box_line e he =>
      refine apply_elimination_total_le _ _ ?_
      intro p hp
      rw [boxLinePass_no_solved bmid e he] at hp
      cases hp
    | no_solved e he =>
      refine apply_elimination_total_le _ _ ?_
      intro p hp
      rw [he] at hp
      cases hp

/-- C8 witness: one place_clue step from the fresh board. -/
theorem C8_witness :
    totalCandidates (add_clue initBoard 0 0 5) ≤ totalCandidates initBoard :=
  C8_total_candidates_nonincreasing _ _
    (SolveSeq.step _ _ _ (SolveSeq.refl _)
      (SolveStep.place 0 0 5 (by decide) (by decide) (by decide) (by decide)))

/-- C9: characterisation of check_pointing_pairs.  For a digit 1..9, a pair
    (j, digit) is eliminated by some produced deduction exactly when there is
    a box whose cells still carrying the digit number 2 or 3, all of which
    see j, while j still carries the digit (such a j is automatically outside
    those cells, since no cell sees itself); in particular a deduction is
    produced whenever such a cell exists and no elimination arises from any
    other box and digit combination. -/
theorem C9_pointing_pairs_exact (b : Board) (digit j : Nat)
    (hd1 : 1 ≤ digit) (hd2 : digit ≤ 9) :
    (∃ e ∈ (check_pointing_pairs b).2, (j, digit) ∈ e.eliminated_candidates) ↔
    (∃ k, k < 9 ∧
      (((boxCellsL k).filter (fun c => decide (digit ∈ (b c).options))).length = 2 ∨
       ((boxCellsL k).filter (fun c => decide (digit ∈ (b c).options))).length = 3) ∧
      (∀ i ∈ (boxCellsL k).filter (fun c => decide (digit ∈ (b c).options)), sees i j = true) ∧
      j ∈ List.range 81 ∧ digit ∈ (b j).options) := by
  constructor
  · rintro ⟨e, he, hmem⟩
    have he' : e ∈ (List.range' 1 9).flatMap
        (fun digit => (List.range 9).filterMap (fun k => pointingFor b digit k)) := he
    rw [List.mem_flatMap] at he'
    obtain ⟨d', hd', he'⟩ := he'
    rw [List.mem_filterMap] at he'
    obtain ⟨k, hk9, hpk⟩ := he'
    simp only [pointingFor] at hpk
    split at hpk
    · rename_i h2
      split at hpk
      · cases hpk
      · cases hpk
        rw [List.mem_map] at hmem
        obtain ⟨c, hc, hcd⟩ := hmem
        rw [Prod.mk.injEq] at hcd
        obtain ⟨rfl, rfl⟩ := hcd
        rw [List.mem_filter] at hc
        obtain ⟨hc1, hc2⟩ := hc
        rw [List.mem_filter] at hc1
        obtain ⟨hr81, hall⟩ := hc1
        refine ⟨k, List.mem_range.mp hk9, h2, ?_, hr81, of_decide_eq_true hc2⟩
        intro i hi
        exact List.all_eq_true.mp hall i hi
    · cases hpk
  · rintro ⟨k, hk9, h23, hsee, hj81, hdj⟩
    have hjmem : j ∈ (List.range 81).filter
        (fun x => ((boxCellsL k).filter (fun c => decide (digit ∈ (b c).options))).all
          (fun i => sees i x)) :=
      List.mem_filter.mpr ⟨hj81, List.all_eq_true.mpr hsee⟩
    have hjelim : j ∈ ((List.range 81).filter
        (fun x => ((boxCellsL k).filter (fun c => decide (digit ∈ (b c).options))).all
          (fun i => sees i x))).filter (fun x => decide (digit ∈ (b x).options)) :=
      List.mem_filter.mpr ⟨hjmem, decide_eq_true hdj⟩
    have hempty : ¬ ((((List.range 81).filter
        (fun x => ((boxCellsL k).filter (fun c => decide (digit ∈ (b c).options))).all
          (fun i => sees i x))).filter (fun x => decide (digit ∈ (b x).options))).isEmpty = true) := by
      rw [List.isEmpty_iff]
      exact List.ne_nil_of_mem hjelim
    have hex : ∃ e, pointingFor b digit k = some e ∧ (j, digit) ∈ e.eliminated_candidates := by
      simp only [pointingFor]
      rw [if_pos h23, if_neg hempty]
      refine ⟨_, rfl, ?_⟩
      exact List.mem_map.mpr ⟨j, hjelim, rfl⟩
    obtain ⟨e, hpf, hjd⟩ := hex
    refine ⟨e, ?_, hjd⟩
    show e ∈ (List.range' 1 9).flatMap
        (fun digit => (List.range 9).filterMap (fun k => pointingFor b digit k))
    rw [List.mem_flatMap]
    refine ⟨digit, List.mem_range'_1.mpr ⟨hd1, ?_⟩, List.mem_filterMap.mpr ⟨k, List.mem_range.mpr hk9, hpf⟩⟩
    omega

/-- C9 witness: on c9board, digit 5 in box 0 is confined to cells 0 and 1,
    and cell 3 sees both and still carries 5, so a pointing-pair elimination
    for (3, 5) is produced. -/
theorem C9_witness :
    ∃ e ∈ (check_pointing_pairs c9board).2, (3, 5) ∈ e.eliminated_candidates :=
  (C9_pointing_pairs_exact c9board 5 3 (by decide) (by decide)).mpr
    ⟨0, by decide, by decide, by decide, by decide, by decide⟩
